import Mathlib

/-!
Verification of the wmfocus window selector (src/main.rs).

Shallow embedding conventions:
* Rust `f64` values (text extents, margins, draw positions) are modelled as
  exact rationals `ℚ`; `f64::round` is modelled by `rustRound` (round half
  away from zero, as `f64::round` does).
* Rust machine integers are modelled as `Int`/`Nat`.  The narrowing casts in
  the source (`as i16`, `as u16`) are modelled explicitly: integer-to-integer
  casts wrap modulo 2^16 (`i32ToI16`, `i32ToU16`), while the float-to-integer
  cast saturates into the target range (`f64ToU16`), per Rust cast semantics.
* Rust integer division truncates towards zero, hence `Int.tdiv`.
* The `xcb` event loop is modelled as a function consuming a list of events;
  an exhausted list models `wait_for_event` returning `None`.  Side effects
  (cairo paint calls, `wm::focus_window`) are collected in an `Effect` list.
* `utils::extents_for_text` (text measurement) is an external collaborator;
  it is a parameter `extentsOf : String → TextExtents` of the setup loop
  (font family and size are fixed for a whole session, so they are folded
  into the parameter).
-/

namespace Wmfocus

/-- `utils::HorizontalAlign` (variants as matched in main.rs lines 131-139). -/
inductive HorizontalAlign where
  | Left
  | Center
  | Right
deriving DecidableEq

/-- `utils::VerticalAlign` (variants as matched in main.rs lines 141-149). -/
inductive VerticalAlign where
  | Top
  | Center
  | Bottom
deriving DecidableEq

/-- `DesktopWindow` (main.rs lines 35-41); `id: i64`, `pos`/`size`: `(i32, i32)`. -/
structure DesktopWindow where
  id : Int
  title : String
  pos : Int × Int
  size : Int × Int
deriving DecidableEq

/-- Cairo text extents for a hint string: the fields of `cairo::TextExtents`
read by main.rs (width, height, x_bearing, y_bearing). -/
structure TextExtents where
  width : ℚ
  height : ℚ
  x_bearing : ℚ
  y_bearing : ℚ
deriving DecidableEq

/-- `AppConfig` (main.rs lines 49-60); the `loaded_font` byte vector is never
read by main.rs and is omitted. -/
structure AppConfig where
  font_family : String
  font_size : ℚ
  margin : ℚ
  text_color : ℚ × ℚ × ℚ × ℚ
  bg_color : ℚ × ℚ × ℚ × ℚ
  fill : Bool
  horizontal_align : HorizontalAlign
  vertical_align : VerticalAlign
deriving DecidableEq

/-- `static HINT_CHARS` (main.rs line 62). -/
def HINT_CHARS : String := "sadfjklewcmpgh"

/-- `f64::round`: round half away from zero. -/
def rustRound (q : ℚ) : Int := if 0 ≤ q then ⌊q + 1/2⌋ else ⌈q - 1/2⌉

/-- Rust `expr as i16` on an `i32` value: wrap modulo 2^16 into [-32768, 32767]. -/
def i32ToI16 (v : Int) : Int := (v + 32768) % 65536 - 32768

/-- Rust `expr as u16` on an `i32` value: wrap modulo 2^16 into [0, 65535]. -/
def i32ToU16 (v : Int) : Int := v % 65536

/-- Rust `expr as u16` on an `f64` value (already rounded to an integer):
saturate into [0, 65535]. -/
def f64ToU16 (v : Int) : Int := max 0 (min v 65535)

/-- The margin factor of main.rs line 107: `let margin_factor = 1.0 + 0.2;`.
It is a local constant; the configured `AppConfig.margin` is not consulted. -/
def margin_factor : ℚ := 1 + 2/10

/-- Width, height and margin offsets of one marker window
(main.rs lines 99-114, the `if app_config.fill` expression). -/
structure MarkerGeom where
  width : Int
  height : Int
  margin_width : ℚ
  margin_height : ℚ
deriving DecidableEq

/-- main.rs lines 99-114: marker size and margin offsets. -/
def markerGeom (cfg : AppConfig) (dw : DesktopWindow) (te : TextExtents) : MarkerGeom :=
  if cfg.fill then
    { width := i32ToU16 dw.size.1
      height := i32ToU16 dw.size.2
      margin_width := ((dw.size.1 : ℚ) - te.width) / 2
      margin_height := ((dw.size.2 : ℚ) - te.height) / 2 }
  else
    { width := f64ToU16 (rustRound (te.width * margin_factor))
      height := f64ToU16 (rustRound (te.height * margin_factor))
      margin_width := (te.width * margin_factor - te.width) / 2
      margin_height := (te.height * margin_factor - te.height) / 2 }

/-- main.rs lines 121-124: the cairo text draw position. -/
def drawPos (te : TextExtents) (g : MarkerGeom) : ℚ × ℚ :=
  (g.margin_width - te.x_bearing,
   te.height + g.margin_height - (te.height + te.y_bearing))

/-- The i32 value computed for `x` (main.rs lines 131-139) before the
`as i16` cast. -/
def markerXExact (cfg : AppConfig) (dw : DesktopWindow) (width : Int) : Int :=
  match cfg.horizontal_align with
  | .Left => dw.pos.1
  | .Center => dw.pos.1 + Int.tdiv dw.size.1 2 - Int.tdiv width 2
  | .Right => dw.pos.1 + dw.size.1 - width

/-- The i32 value computed for `y` (main.rs lines 141-149) before the
`as i16` cast. -/
def markerYExact (cfg : AppConfig) (dw : DesktopWindow) (height : Int) : Int :=
  match cfg.vertical_align with
  | .Top => dw.pos.2
  | .Center => dw.pos.2 + Int.tdiv dw.size.2 2 - Int.tdiv height 2
  | .Bottom => dw.pos.2 + dw.size.2 - height

/-- `let x = match app_config.horizontal_align ... as i16` (main.rs 131-139). -/
def markerX (cfg : AppConfig) (dw : DesktopWindow) (width : Int) : Int :=
  i32ToI16 (markerXExact cfg dw width)

/-- `let y = match app_config.vertical_align ... as i16` (main.rs 141-149). -/
def markerY (cfg : AppConfig) (dw : DesktopWindow) (height : Int) : Int :=
  i32ToI16 (markerYExact cfg dw height)

/-- Smallest label length `L ≥ startL` with `count ≤ k^L`, searched with
explicit fuel so that the definition is structural. -/
def sizeRequiredAux (k count : Nat) : Nat → Nat → Nat
  | 0, L => L
  | fuel + 1, L => if count ≤ k ^ L then L else sizeRequiredAux k count fuel (L + 1)

/-- Smallest label length `L ≥ 1` with `count ≤ k^L` (for `k ≥ 2`). -/
def sizeRequired (k count : Nat) : Nat := sizeRequiredAux k count count 1

/-- All strings (as character lists) of a given length over an alphabet,
in lexicographic order of the alphabet. -/
def allStrings (chars : List Char) : Nat → List (List Char)
  | 0 => [[]]
  | n + 1 => (allStrings chars n).flatMap (fun s => chars.map (fun c => s ++ [c]))

/-- Modelled from the spec: `utils::get_next_hint` (main.rs declares
`mod utils;` and calls `utils::get_next_hint(render_windows.keys(), HINT_CHARS,
desktop_windows.len())` at lines 90-94, but `utils.rs` itself is not under
`src/`).  Per spec §4.1 the allocator treats the alphabet as digits of a
base-k code sized by the total target count, assigns the next label that is
not yet used and neither prefixes nor is prefixed by an existing label, and
keeps the labeling prefix-free; all labels of one session therefore share the
minimal length `L` with `k^L ≥ count`, and each call returns the first
unassigned string of that length. -/
def get_next_hint (current_hints : List String) (hint_chars : List Char)
    (max_count : Nat) : String :=
  let L := sizeRequired hint_chars.length max_count
  match (allStrings hint_chars L).find?
      (fun s => !(current_hints.contains (String.mk s))) with
  | some s => String.mk s
  | none => String.mk (hint_chars.take 1)

/-- `RenderWindow` (main.rs lines 43-47); the cairo context is an external
handle and is not part of the model, the draw position is. -/
structure RenderWindow where
  desktop_window : DesktopWindow
  draw_pos : ℚ × ℚ
deriving DecidableEq

/-- `HashMap::insert`: replace the value when the key is present, otherwise
add a new entry (the map is modelled as an association list). -/
def insertHM (k : String) (v : RenderWindow) (m : List (String × RenderWindow)) :
    List (String × RenderWindow) :=
  if (m.lookup k).isSome then
    m.map (fun p => if p.1 = k then (k, v) else p)
  else
    m ++ [(k, v)]

/-- The setup loop of main.rs lines 86-212: for each desktop window, get the
next hint (passing the keys of the map built so far), measure the text,
compute the marker geometry and draw position, and insert the render window
under its hint. -/
def spawnLoop (cfg : AppConfig) (extentsOf : String → TextExtents)
    (hint_chars : List Char) (total : Nat) :
    List DesktopWindow → List (String × RenderWindow) → List (String × RenderWindow)
  | [], m => m
  | dw :: rest, m =>
    let hint := get_next_hint (m.map Prod.fst) hint_chars total
    let te := extentsOf hint
    let g := markerGeom cfg dw te
    spawnLoop cfg extentsOf hint_chars total rest
      (insertHM hint { desktop_window := dw, draw_pos := drawPos te g } m)

/-- `render_windows` as built by main.rs lines 86-212 from the window list
returned by `wm::get_windows()`, with the real `HINT_CHARS` alphabet. -/
def render_windows (cfg : AppConfig) (extentsOf : String → TextExtents)
    (dws : List DesktopWindow) : List (String × RenderWindow) :=
  spawnLoop cfg extentsOf HINT_CHARS.toList dws.length dws []

/-- `xkb::KEY_Escape`. -/
def KEY_Escape : Nat := 0xff1b

/-- One `xcb` event as consumed by the loop of main.rs lines 243-305:
an Expose, a button press, a key press carrying the looked-up keysym and its
`XKeysymToString` rendering, or any other response type. -/
inductive XEvent where
  | expose
  | buttonPress
  | keyPress (ksym : Nat) (kstr : String)
  | other
deriving DecidableEq

/-- Observable side effects of the event loop: the cairo paint sequence for
one marker (background fill, then the label text at the draw position), and
`wm::focus_window`. -/
inductive Effect where
  | paintBg (dw : DesktopWindow) (bg : ℚ × ℚ × ℚ × ℚ)
  | drawText (dw : DesktopWindow) (pos : ℚ × ℚ) (color : ℚ × ℚ × ℚ × ℚ)
      (font : String) (size : ℚ) (text : String)
  | focusWindow (dw : DesktopWindow)
deriving DecidableEq

/-- The paint calls of the `xcb::EXPOSE` branch (main.rs lines 253-279):
for every render window, a background fill followed by the hint text. -/
def paintCalls (cfg : AppConfig) (m : List (String × RenderWindow)) : List Effect :=
  m.flatMap (fun p =>
    [Effect.paintBg p.2.desktop_window cfg.bg_color,
     Effect.drawText p.2.desktop_window p.2.draw_pos cfg.text_color
       cfg.font_family cfg.font_size p.1])

/-- One iteration of the event loop body (main.rs lines 250-303): returns the
new value of `closed` and the effects issued.  In the `KEY_PRESS` branch the
code first sets `closed` when the keysym is Escape, then looks the key string
up in `render_windows` and, on a hit, focuses that window and sets `closed`. -/
def processEvent (cfg : AppConfig) (m : List (String × RenderWindow)) :
    XEvent → Bool × List Effect
  | .expose => (false, paintCalls cfg m)
  | .buttonPress => (true, [])
  | .keyPress ksym kstr =>
    match m.lookup kstr with
    | some rw => (true, [Effect.focusWindow rw.desktop_window])
    | none => (ksym == KEY_Escape, [])
  | .other => (false, [])

/-- The event loop of main.rs lines 243-305: process events until `closed`
is set or `wait_for_event` returns `None` (the list is exhausted), collecting
all effects in order. -/
def runLoop (cfg : AppConfig) (m : List (String × RenderWindow)) :
    List XEvent → List Effect
  | [] => []
  | e :: rest =>
    let r := processEvent cfg m e
    r.2 ++ (if r.1 then [] else runLoop cfg m rest)

/-- A concrete desktop window for witnesses. -/
def dw0 : DesktopWindow := { id := 7, title := "w", pos := (0, 0), size := (640, 480) }

/-- A concrete non-fill configuration for witnesses. -/
def cfg0 : AppConfig :=
  { font_family := "Mono", font_size := 30, margin := 1/2
    text_color := (1, 1, 1, 1), bg_color := (0, 0, 1, 1), fill := false
    horizontal_align := .Left, vertical_align := .Top }

/-- The spec's concrete text extents: width 10, height 10, bearings (0, -10). -/
def te10 : TextExtents := { width := 10, height := 10, x_bearing := 0, y_bearing := -10 }

/-- Text extents whose scaled width 2.4 rounds away from the exact value. -/
def te2 : TextExtents := { width := 2, height := 2, x_bearing := 0, y_bearing := 0 }

/-- Text extents whose scaled, rounded width 70000 exceeds the u16 range. -/
def teBig : TextExtents := { width := 58333, height := 58333, x_bearing := 0, y_bearing := 0 }

/-- A concrete render window for witnesses. -/
def rw0 : RenderWindow := { desktop_window := dw0, draw_pos := (1, 11) }

/-- A one-entry session whose only label has two characters. -/
def mss : List (String × RenderWindow) := [("ss", rw0)]

/-- A concrete configuration with centered alignment for witnesses. -/
def cfgCenter : AppConfig :=
  { font_family := "Mono", font_size := 30, margin := 1/2
    text_color := (1, 1, 1, 1), bg_color := (0, 0, 1, 1), fill := false
    horizontal_align := .Center, vertical_align := .Center }

/-- The spec's concrete alignment target: position (100,100), size (200,50). -/
def dwTarget : DesktopWindow :=
  { id := 1, title := "t", pos := (100, 100), size := (200, 50) }

/- ------------------------------------------------------------------ -/
/- Helper lemmas on the cast models.                                   -/
/- ------------------------------------------------------------------ -/

theorem i32ToI16_eq_self {v : Int} (h0 : -32768 ≤ v) (h1 : v ≤ 32767) :
    i32ToI16 v = v := by
  unfold i32ToI16
  omega

theorem i32ToU16_eq_self {v : Int} (h0 : 0 ≤ v) (h1 : v ≤ 65535) :
    i32ToU16 v = v := by
  unfold i32ToU16
  omega

theorem f64ToU16_eq_self {v : Int} (h0 : 0 ≤ v) (h1 : v ≤ 65535) :
    f64ToU16 v = v := by
  unfold f64ToU16
  omega

theorem i32ToI16_range (v : Int) : -32768 ≤ i32ToI16 v ∧ i32ToI16 v ≤ 32767 := by
  unfold i32ToI16
  omega

theorem i32ToU16_range (v : Int) : 0 ≤ i32ToU16 v ∧ i32ToU16 v ≤ 65535 := by
  unfold i32ToU16
  omega

theorem f64ToU16_range (v : Int) : 0 ≤ f64ToU16 v ∧ f64ToU16 v ≤ 65535 := by
  unfold f64ToU16
  omega

/- ------------------------------------------------------------------ -/
/- C5: marker size and text origin in non-fill mode.                   -/
/- ------------------------------------------------------------------ -/

/-- C5: with fill=false and margin factor 1.2, the marker size is
(round(width*1.2), round(height*1.2)) (whenever the rounded values fit in
u16, so the cast is the identity) and the text draw origin is
(margin_x - x_bearing, height + margin_y - (height + y_bearing)); in
particular extents {width:10, height:10, x_bearing:0, y_bearing:-10} yield
marker size (12,12) and origin (1,11). -/
theorem marker_size_origin_nonfill (cfg : AppConfig) (dw : DesktopWindow)
    (te : TextExtents) (hf : cfg.fill = false)
    (hw0 : 0 ≤ rustRound (te.width * margin_factor))
    (hw1 : rustRound (te.width * margin_factor) ≤ 65535)
    (hh0 : 0 ≤ rustRound (te.height * margin_factor))
    (hh1 : rustRound (te.height * margin_factor) ≤ 65535) :
    (markerGeom cfg dw te).width = rustRound (te.width * margin_factor) ∧
    (markerGeom cfg dw te).height = rustRound (te.height * margin_factor) ∧
    drawPos te (markerGeom cfg dw te) =
      ((te.width * margin_factor - te.width) / 2 - te.x_bearing,
       te.height + (te.height * margin_factor - te.height) / 2
         - (te.height + te.y_bearing)) ∧
    (markerGeom cfg dw te10).width = 12 ∧
    (markerGeom cfg dw te10).height = 12 ∧
    drawPos te10 (markerGeom cfg dw te10) = (1, 11) := by
  refine ⟨?_, ?_, ?_, ?_, ?_, ?_⟩
  · simp only [markerGeom, hf, if_false, Bool.false_eq_true]
    exact f64ToU16_eq_self hw0 hw1
  · simp only [markerGeom, hf, if_false, Bool.false_eq_true]
    exact f64ToU16_eq_self hh0 hh1
  · simp only [markerGeom, hf, if_false, Bool.false_eq_true, drawPos]
  · simp only [markerGeom, hf, if_false, Bool.false_eq_true, te10]
    norm_num [rustRound, margin_factor, f64ToU16]
  · simp only [markerGeom, hf, if_false, Bool.false_eq_true, te10]
    norm_num [rustRound, margin_factor, f64ToU16]
  · simp only [markerGeom, hf, if_false, Bool.false_eq_true, drawPos, te10]
    norm_num [margin_factor]

/-- Witness for C5 at the spec's concrete extents. -/
theorem marker_size_origin_nonfill_witness :
    cfg0.fill = false ∧
    (0 ≤ rustRound (te10.width * margin_factor) ∧
      rustRound (te10.width * margin_factor) ≤ 65535) ∧
    ((markerGeom cfg0 dw0 te10).width = 12 ∧
      (markerGeom cfg0 dw0 te10).height = 12 ∧
      drawPos te10 (markerGeom cfg0 dw0 te10) = (1, 11)) := by
  have hr : rustRound (te10.width * margin_factor) = 12 := by
    norm_num [rustRound, margin_factor, te10]
  have hr2 : rustRound (te10.height * margin_factor) = 12 := by
    norm_num [rustRound, margin_factor, te10]
  have h := marker_size_origin_nonfill cfg0 dw0 te10 rfl
    (by rw [hr]; norm_num) (by rw [hr]; norm_num)
    (by rw [hr2]; norm_num) (by rw [hr2]; norm_num)
  exact ⟨rfl, ⟨by rw [hr]; norm_num, by rw [hr]; norm_num⟩,
    h.2.2.2.1, h.2.2.2.2.1, h.2.2.2.2.2⟩

/- ------------------------------------------------------------------ -/
/- C6: marker alignment.                                               -/
/- ------------------------------------------------------------------ -/

/-- C6: when the computed coordinates fit in i16, the marker position
follows the alignment rule: Left/Top anchors at the target origin, Center at
origin + extent/2 - marker_extent/2, Right/Bottom at origin + extent -
marker_extent; in particular horizontal Center with target (100,100,200,50)
and marker width 20 gives x = 190. -/
theorem marker_alignment (cfg : AppConfig) (dw : DesktopWindow)
    (width height : Int)
    (hx0 : -32768 ≤ markerXExact cfg dw width)
    (hx1 : markerXExact cfg dw width ≤ 32767)
    (hy0 : -32768 ≤ markerYExact cfg dw height)
    (hy1 : markerYExact cfg dw height ≤ 32767) :
    (cfg.horizontal_align = .Left → markerX cfg dw width = dw.pos.1) ∧
    (cfg.horizontal_align = .Center →
      markerX cfg dw width = dw.pos.1 + Int.tdiv dw.size.1 2 - Int.tdiv width 2) ∧
    (cfg.horizontal_align = .Right →
      markerX cfg dw width = dw.pos.1 + dw.size.1 - width) ∧
    (cfg.vertical_align = .Top → markerY cfg dw height = dw.pos.2) ∧
    (cfg.vertical_align = .Center →
      markerY cfg dw height = dw.pos.2 + Int.tdiv dw.size.2 2 - Int.tdiv height 2) ∧
    (cfg.vertical_align = .Bottom →
      markerY cfg dw height = dw.pos.2 + dw.size.2 - height) ∧
    (cfg.horizontal_align = .Center → dw.pos.1 = 100 → dw.size.1 = 200 →
      width = 20 → markerX cfg dw width = 190) := by
  have hx : markerX cfg dw width = markerXExact cfg dw width :=
    i32ToI16_eq_self hx0 hx1
  have hy : markerY cfg dw height = markerYExact cfg dw height :=
    i32ToI16_eq_self hy0 hy1
  refine ⟨fun h => ?_, fun h => ?_, fun h => ?_, fun h => ?_, fun h => ?_,
    fun h => ?_, fun h hp hs hw => ?_⟩
  · rw [hx]; simp [markerXExact, h]
  · rw [hx]; simp [markerXExact, h]
  · rw [hx]; simp [markerXExact, h]
  · rw [hy]; simp [markerYExact, h]
  · rw [hy]; simp [markerYExact, h]
  · rw [hy]; simp [markerYExact, h]
  · rw [hx]; simp only [markerXExact, h, hp, hs, hw]; decide

/-- Witness for C6 at the spec's concrete alignment example. -/
theorem marker_alignment_witness :
    (-32768 ≤ markerXExact cfgCenter dwTarget 20 ∧
      markerXExact cfgCenter dwTarget 20 ≤ 32767) ∧
    markerX cfgCenter dwTarget 20 = 190 := by
  have h := marker_alignment cfgCenter dwTarget 20 20
    (by decide) (by decide) (by decide) (by decide)
  exact ⟨⟨by decide, by decide⟩, h.2.2.2.2.2.2 rfl rfl rfl rfl⟩

/- ------------------------------------------------------------------ -/
/- C7: the configured margin is ignored (corrected).                   -/
/- ------------------------------------------------------------------ -/

/-- Counterexample to C7: cfg0 configures margin 1/2 (> 0), extents width 10,
yet the computed marker width is 12 = round(10 * 1.2), not
round(10 * 1/2) = 5: the configured factor is not the one used. -/
theorem config_margin_counterexample :
    cfg0.fill = false ∧ 0 < cfg0.margin ∧
    (markerGeom cfg0 dw0 te10).width = 12 ∧
    rustRound (te10.width * cfg0.margin) = 5 ∧
    (markerGeom cfg0 dw0 te10).width ≠ rustRound (te10.width * cfg0.margin) := by
  refine ⟨rfl, by norm_num [cfg0], ?_, ?_, ?_⟩ <;>
    norm_num [markerGeom, cfg0, te10, rustRound, margin_factor, f64ToU16]

/-- C7 amended: in non-fill mode the marker size is the text extents scaled
by the hardcoded factor 1.2 (then rounded and cast), regardless of the
configured margin: changing `AppConfig.margin` never changes the geometry. -/
theorem margin_factor_hardcoded (cfg : AppConfig) (dw : DesktopWindow)
    (te : TextExtents) (hf : cfg.fill = false) :
    (markerGeom cfg dw te).width = f64ToU16 (rustRound (te.width * (1 + 2/10))) ∧
    (markerGeom cfg dw te).height = f64ToU16 (rustRound (te.height * (1 + 2/10))) ∧
    ∀ q : ℚ, markerGeom { cfg with margin := q } dw te = markerGeom cfg dw te := by
  refine ⟨?_, ?_, fun q => ?_⟩ <;>
    simp [markerGeom, hf, margin_factor]

/-- Witness for C7's amended statement. -/
theorem margin_factor_hardcoded_witness :
    cfg0.fill = false ∧
    ((markerGeom cfg0 dw0 te10).width = f64ToU16 (rustRound (te10.width * (1 + 2/10))) ∧
      (markerGeom cfg0 dw0 te10).height = f64ToU16 (rustRound (te10.height * (1 + 2/10))) ∧
      ∀ q : ℚ, markerGeom { cfg0 with margin := q } dw0 te10 = markerGeom cfg0 dw0 te10) :=
  ⟨rfl, margin_factor_hardcoded cfg0 dw0 te10 rfl⟩

/- ------------------------------------------------------------------ -/
/- C8: margin offsets and text centering (corrected).                  -/
/- ------------------------------------------------------------------ -/

/-- Counterexample to C8: with extents width 2 in non-fill mode the final
marker width is 2 (round(2.4)), so the claimed offset (marker_width -
text_width)/2 would be 0, but the code computes (2*1.2 - 2)/2 = 1/5 from the
unrounded scaled width. -/
theorem margin_centering_counterexample :
    cfg0.fill = false ∧
    (markerGeom cfg0 dw0 te2).width = 2 ∧
    (markerGeom cfg0 dw0 te2).margin_width = 1/5 ∧
    (markerGeom cfg0 dw0 te2).margin_width ≠
      (((markerGeom cfg0 dw0 te2).width : ℚ) - te2.width) / 2 := by
  refine ⟨rfl, ?_, ?_, ?_⟩ <;>
    norm_num [markerGeom, cfg0, te2, rustRound, margin_factor, f64ToU16]

/-- C8 amended: in fill mode the offsets are (target_size - extents)/2, which
equals (marker_size - extents)/2 whenever the target size fits in u16; in
non-fill mode the offsets are (extents*1.2 - extents)/2, computed from the
unrounded scaled size, which can differ from (final marker size - extents)/2
when extents*1.2 is not an integer. -/
theorem margin_centering_amended (cfg : AppConfig) (dw : DesktopWindow)
    (te : TextExtents) :
    (cfg.fill = true → 0 ≤ dw.size.1 → dw.size.1 ≤ 65535 →
      (markerGeom cfg dw te).margin_width =
        (((markerGeom cfg dw te).width : ℚ) - te.width) / 2) ∧
    (cfg.fill = true → 0 ≤ dw.size.2 → dw.size.2 ≤ 65535 →
      (markerGeom cfg dw te).margin_height =
        (((markerGeom cfg dw te).height : ℚ) - te.height) / 2) ∧
    (cfg.fill = false →
      (markerGeom cfg dw te).margin_width =
        (te.width * margin_factor - te.width) / 2 ∧
      (markerGeom cfg dw te).margin_height =
        (te.height * margin_factor - te.height) / 2) := by
  refine ⟨fun hf h0 h1 => ?_, fun hf h0 h1 => ?_, fun hf => ?_⟩
  · simp [markerGeom, hf, i32ToU16_eq_self h0 h1]
  · simp [markerGeom, hf, i32ToU16_eq_self h0 h1]
  · constructor <;> simp [markerGeom, hf]

/-- Witness for C8's amended statement, in both modes. -/
theorem margin_centering_amended_witness :
    (cfg0.fill = false ∧
      (markerGeom cfg0 dw0 te2).margin_width =
        (te2.width * margin_factor - te2.width) / 2) ∧
    ({ cfg0 with fill := true }.fill = true ∧ 0 ≤ dw0.size.1 ∧ dw0.size.1 ≤ 65535 ∧
      (markerGeom { cfg0 with fill := true } dw0 te2).margin_width =
        (((markerGeom { cfg0 with fill := true } dw0 te2).width : ℚ) - te2.width) / 2) :=
  ⟨⟨rfl, ((margin_centering_amended cfg0 dw0 te2).2.2 rfl).1⟩,
   ⟨rfl, by decide, by decide,
    (margin_centering_amended { cfg0 with fill := true } dw0 te2).1 rfl
      (by decide) (by decide)⟩⟩

/- ------------------------------------------------------------------ -/
/- C10: 16-bit casts of position and size (corrected).                 -/
/- ------------------------------------------------------------------ -/

/-- Counterexample to C10's modulo clause: extents width 58333 scales and
rounds to 70000, outside u16; the f64-to-u16 cast saturates the marker width
to 65535 instead of reducing it to 70000 mod 2^16 = 4464. -/
theorem cast_modulo_counterexample :
    cfg0.fill = false ∧
    rustRound (teBig.width * margin_factor) = 70000 ∧
    (markerGeom cfg0 dw0 teBig).width = 65535 ∧
    (70000 : Int) % 65536 = 4464 ∧
    (markerGeom cfg0 dw0 teBig).width ≠ 70000 % 65536 := by
  refine ⟨rfl, ?_, ?_, by decide, ?_⟩ <;>
    norm_num [markerGeom, cfg0, teBig, rustRound, margin_factor, f64ToU16]

/-- C10 amended: positions are cast i32 → i16 and sizes i32/f64 → u16.
Integer-sourced casts (the x/y positions, and fill-mode sizes) wrap modulo
2^16 and are exact in [-32768,32767] resp. [0,65535]; the non-fill sizes go
through a float-to-integer cast which saturates into [0,65535] rather than
wrapping. -/
theorem cast_semantics (cfg : AppConfig) (dw : DesktopWindow)
    (te : TextExtents) (width height : Int) :
    ((markerX cfg dw width - markerXExact cfg dw width) % 65536 = 0) ∧
    ((markerY cfg dw height - markerYExact cfg dw height) % 65536 = 0) ∧
    (-32768 ≤ markerX cfg dw width ∧ markerX cfg dw width ≤ 32767) ∧
    (-32768 ≤ markerXExact cfg dw width → markerXExact cfg dw width ≤ 32767 →
      markerX cfg dw width = markerXExact cfg dw width) ∧
    (-32768 ≤ markerYExact cfg dw height → markerYExact cfg dw height ≤ 32767 →
      markerY cfg dw height = markerYExact cfg dw height) ∧
    (cfg.fill = true →
      ((markerGeom cfg dw te).width - dw.size.1) % 65536 = 0 ∧
      (0 ≤ dw.size.1 → dw.size.1 ≤ 65535 →
        (markerGeom cfg dw te).width = dw.size.1)) ∧
    (cfg.fill = false →
      (0 ≤ (markerGeom cfg dw te).width ∧ (markerGeom cfg dw te).width ≤ 65535) ∧
      (0 ≤ rustRound (te.width * margin_factor) →
        rustRound (te.width * margin_factor) ≤ 65535 →
        (markerGeom cfg dw te).width = rustRound (te.width * margin_factor)) ∧
      (65535 < rustRound (te.width * margin_factor) →
        (markerGeom cfg dw te).width = 65535)) := by
  refine ⟨?_, ?_, ?_, fun h0 h1 => i32ToI16_eq_self h0 h1,
    fun h0 h1 => i32ToI16_eq_self h0 h1, fun hf => ⟨?_, fun h0 h1 => ?_⟩,
    fun hf => ⟨?_, fun h0 h1 => ?_, fun h => ?_⟩⟩
  · unfold markerX i32ToI16; omega
  · unfold markerY i32ToI16; omega
  · exact i32ToI16_range _
  · simp only [markerGeom, hf, if_true]
    unfold i32ToU16; omega
  · simp only [markerGeom, hf, if_true]
    exact i32ToU16_eq_self h0 h1
  · simp only [markerGeom, hf, Bool.false_eq_true, if_false]
    exact f64ToU16_range _
  · simp only [markerGeom, hf, Bool.false_eq_true, if_false]
    exact f64ToU16_eq_self h0 h1
  · simp only [markerGeom, hf, Bool.false_eq_true, if_false]
    unfold f64ToU16; omega

/-- Witness for C10's amended statement. -/
theorem cast_semantics_witness :
    ((markerX cfg0 dw0 12 - markerXExact cfg0 dw0 12) % 65536 = 0 ∧
      markerX cfg0 dw0 12 = markerXExact cfg0 dw0 12) ∧
    (cfg0.fill = false ∧
      0 ≤ (markerGeom cfg0 dw0 te10).width ∧ (markerGeom cfg0 dw0 te10).width ≤ 65535) := by
  have h := cast_semantics cfg0 dw0 te10 12 12
  exact ⟨⟨h.1, h.2.2.2.1 (by decide) (by decide)⟩,
    ⟨rfl, (h.2.2.2.2.2.2 rfl).1.1, (h.2.2.2.2.2.2 rfl).1.2⟩⟩

/- ------------------------------------------------------------------ -/
/- Event-loop helper lemmas.                                           -/
/- ------------------------------------------------------------------ -/

theorem focus_not_mem_paintCalls (cfg : AppConfig)
    (m : List (String × RenderWindow)) (dw : DesktopWindow) :
    Effect.focusWindow dw ∉ paintCalls cfg m := by
  simp [paintCalls, List.mem_flatMap]

theorem runLoop_key_hit (cfg : AppConfig) (m : List (String × RenderWindow))
    (ksym : Nat) (kstr : String) (rw : RenderWindow) (rest : List XEvent)
    (hlook : m.lookup kstr = some rw) :
    runLoop cfg m (XEvent.keyPress ksym kstr :: rest) =
      [Effect.focusWindow rw.desktop_window] := by
  simp [runLoop, processEvent, hlook]

/- ------------------------------------------------------------------ -/
/- C2: a fully matching key event focuses once and ends the loop.      -/
/- ------------------------------------------------------------------ -/

/-- C2: a key event whose decoded string is one of the session's labels makes
the loop emit exactly one focus request, for that label's window, and stop
(the remaining events are never processed); and an event can only ever
produce a focus request if it is a key event whose decoded string is a label,
in which case the request targets that label's window. -/
theorem key_match_focus (cfg : AppConfig) (m : List (String × RenderWindow))
    (ksym : Nat) (kstr : String) (rw : RenderWindow) (rest : List XEvent)
    (hlook : m.lookup kstr = some rw) :
    runLoop cfg m (XEvent.keyPress ksym kstr :: rest) =
      [Effect.focusWindow rw.desktop_window] ∧
    (∀ e dw, Effect.focusWindow dw ∈ (processEvent cfg m e).2 →
      ∃ ks ss rw', e = XEvent.keyPress ks ss ∧ m.lookup ss = some rw' ∧
        dw = rw'.desktop_window) := by
  refine ⟨runLoop_key_hit cfg m ksym kstr rw rest hlook, fun e dw hmem => ?_⟩
  cases e with
  | expose => exact absurd hmem (focus_not_mem_paintCalls cfg m dw)
  | buttonPress => simp [processEvent] at hmem
  | keyPress ks ss =>
    cases hl : m.lookup ss with
    | none => simp [processEvent, hl] at hmem
    | some rw' =>
      simp only [processEvent, hl, List.mem_singleton, Effect.focusWindow.injEq] at hmem
      exact ⟨ks, ss, rw', rfl, hl, hmem⟩
  | other => simp [processEvent] at hmem

/-- Witness for C2: typing the label "ss" focuses its window once and the
later button press is never processed. -/
theorem key_match_focus_witness :
    mss.lookup "ss" = some rw0 ∧
    runLoop cfg0 mss [XEvent.keyPress 115 "ss", XEvent.buttonPress] =
      [Effect.focusWindow rw0.desktop_window] :=
  ⟨rfl, (key_match_focus cfg0 mss 115 "ss" rw0 [XEvent.buttonPress] rfl).1⟩

/- ------------------------------------------------------------------ -/
/- C3: Escape, button press or end of stream cancel with no focus.     -/
/- ------------------------------------------------------------------ -/

/-- C3: from the listening state, an Escape key press (whose decoded string
is not a label), a pointer-button press, or an exhausted event stream each
end the loop with zero effects, in particular zero focus requests, whatever
events would have followed. -/
theorem cancel_terminates (cfg : AppConfig) (m : List (String × RenderWindow))
    (kstr : String) (rest₁ rest₂ : List XEvent)
    (hesc : m.lookup kstr = none) :
    runLoop cfg m (XEvent.keyPress KEY_Escape kstr :: rest₁) = [] ∧
    runLoop cfg m (XEvent.buttonPress :: rest₂) = [] ∧
    runLoop cfg m [] = [] := by
  refine ⟨?_, ?_, rfl⟩
  · simp [runLoop, processEvent, hesc]
  · simp [runLoop, processEvent]

/-- Witness for C3: the dropped tails contain a key event that would focus,
showing the loop really stopped. -/
theorem cancel_terminates_witness :
    mss.lookup "Escape" = none ∧
    runLoop cfg0 mss [XEvent.keyPress KEY_Escape "Escape", XEvent.keyPress 115 "ss"] = [] ∧
    runLoop cfg0 mss [XEvent.buttonPress, XEvent.keyPress 115 "ss"] = [] ∧
    runLoop cfg0 mss [] = [] := by
  have h := cancel_terminates cfg0 mss "Escape"
    [XEvent.keyPress 115 "ss"] [XEvent.keyPress 115 "ss"] rfl
  exact ⟨rfl, h.1, h.2.1, h.2.2⟩

/- ------------------------------------------------------------------ -/
/- C4: there is no input buffer (corrected).                           -/
/- ------------------------------------------------------------------ -/

/-- Counterexample to C4: the session holds the two-character label "ss",
yet typing its characters as two separate key events produces no effect at
all — in particular it does not resolve to the label's target — because each
key event is looked up independently against the full label strings. -/
theorem multichar_label_counterexample :
    ("ss" : String).length = 2 ∧
    mss.lookup "ss" = some rw0 ∧
    runLoop cfg0 mss [XEvent.keyPress 115 "s", XEvent.keyPress 115 "s"] = [] := by
  refine ⟨rfl, rfl, ?_⟩
  have hl : mss.lookup "s" = none := rfl
  simp [runLoop, processEvent, hl, KEY_Escape]

/-- C4 amended: the controller keeps no buffer; each key event is looked up
independently against the full label set, so a run whose key events all have
non-label decoded strings never issues a focus request, while a single key
event decoding to an entire label resolves at once. -/
theorem key_lookup_no_buffer (cfg : AppConfig)
    (m : List (String × RenderWindow)) (events : List XEvent)
    (h : ∀ ks ss, XEvent.keyPress ks ss ∈ events → m.lookup ss = none) :
    (∀ dw, Effect.focusWindow dw ∉ runLoop cfg m events) ∧
    (∀ ksym kstr rw rest, m.lookup kstr = some rw →
      runLoop cfg m (XEvent.keyPress ksym kstr :: rest) =
        [Effect.focusWindow rw.desktop_window]) := by
  refine ⟨?_, fun ksym kstr rw rest hl => runLoop_key_hit cfg m ksym kstr rw rest hl⟩
  induction events with
  | nil => intro dw; simp [runLoop]
  | cons e rest ih =>
    intro dw
    have hrest : ∀ ks ss, XEvent.keyPress ks ss ∈ rest → m.lookup ss = none :=
      fun ks ss hm => h ks ss (List.mem_cons_of_mem e hm)
    have ihr := ih hrest dw
    cases e with
    | expose =>
      simp only [runLoop, processEvent, List.mem_append, if_false, Bool.false_eq_true]
      rintro (hc | hc)
      · exact focus_not_mem_paintCalls cfg m dw hc
      · exact ihr hc
    | buttonPress => simp [runLoop, processEvent]
    | keyPress ks ss =>
      have hl : m.lookup ss = none := h ks ss (List.mem_cons_self _ _)
      cases hb : (ks == KEY_Escape) with
      | false => simp only [runLoop, processEvent, hl, hb, List.nil_append,
          Bool.false_eq_true, if_false]; exact ihr
      | true => simp [runLoop, processEvent, hl, hb]
    | other =>
      simp only [runLoop, processEvent, List.nil_append, if_false, Bool.false_eq_true]
      exact ihr

/-- Witness for C4's amended statement: typing "s" twice never focuses. -/
theorem key_lookup_no_buffer_witness :
    (∀ ks ss,
      XEvent.keyPress ks ss ∈ [XEvent.keyPress 115 "s", XEvent.keyPress 115 "s"] →
      mss.lookup ss = none) ∧
    (∀ dw, Effect.focusWindow dw ∉
      runLoop cfg0 mss [XEvent.keyPress 115 "s", XEvent.keyPress 115 "s"]) := by
  have hh : ∀ ks ss,
      XEvent.keyPress ks ss ∈ [XEvent.keyPress 115 "s", XEvent.keyPress 115 "s"] →
      mss.lookup ss = none := by
    intro ks ss hm
    rcases List.mem_cons.mp hm with h1 | h1
    · cases h1; rfl
    · rcases List.mem_cons.mp h1 with h2 | h2
      · cases h2; rfl
      · cases h2
  exact ⟨hh, (key_lookup_no_buffer cfg0 mss
    [XEvent.keyPress 115 "s", XEvent.keyPress 115 "s"] hh).1⟩

/- ------------------------------------------------------------------ -/
/- C9: Expose repaints all markers and changes nothing.                -/
/- ------------------------------------------------------------------ -/

/-- C9: an Expose event issues, per marker, a background fill followed by the
label text at the stored draw position; it leaves `closed` false (the loop
keeps listening), the label-to-marker map is untouched (it is immutable in
the loop), no focus request is issued, and a repeated Expose re-issues the
identical paint calls. -/
theorem expose_idempotent (cfg : AppConfig)
    (m : List (String × RenderWindow)) (rest : List XEvent) :
    processEvent cfg m XEvent.expose = (false, paintCalls cfg m) ∧
    paintCalls cfg m = m.flatMap (fun p =>
      [Effect.paintBg p.2.desktop_window cfg.bg_color,
       Effect.drawText p.2.desktop_window p.2.draw_pos cfg.text_color
         cfg.font_family cfg.font_size p.1]) ∧
    runLoop cfg m (XEvent.expose :: rest) = paintCalls cfg m ++ runLoop cfg m rest ∧
    runLoop cfg m (XEvent.expose :: XEvent.expose :: rest) =
      paintCalls cfg m ++ paintCalls cfg m ++ runLoop cfg m rest ∧
    (∀ dw, Effect.focusWindow dw ∉ paintCalls cfg m) := by
  refine ⟨rfl, rfl, ?_, ?_, focus_not_mem_paintCalls cfg m⟩
  · simp [runLoop, processEvent]
  · simp [runLoop, processEvent, List.append_assoc]

/-- Witness for C9 on a concrete session. -/
theorem expose_idempotent_witness :
    runLoop cfg0 mss [XEvent.expose, XEvent.expose] =
      paintCalls cfg0 mss ++ paintCalls cfg0 mss ++ runLoop cfg0 mss [] ∧
    Effect.focusWindow dw0 ∉ paintCalls cfg0 mss :=
  ⟨(expose_idempotent cfg0 mss []).2.2.2.1,
   (expose_idempotent cfg0 mss []).2.2.2.2 dw0⟩

/- ------------------------------------------------------------------ -/
/- C1: hint allocation lemmas.                                         -/
/- ------------------------------------------------------------------ -/

theorem sizeRequiredAux_spec (k count : Nat) :
    ∀ (fuel L : Nat), count ≤ k ^ (L + fuel) →
      count ≤ k ^ sizeRequiredAux k count fuel L := by
  intro fuel
  induction fuel with
  | zero => intro L h; rw [Nat.add_zero] at h; exact h
  | succ n ih =>
    intro L h
    unfold sizeRequiredAux
    by_cases hc : count ≤ k ^ L
    · simp [hc]
    · simp only [hc, if_false]
      refine ih (L + 1) ?_
      have he : L + (n + 1) = L + 1 + n := by omega
      rwa [he] at h

theorem sizeRequired_spec {k count : Nat} (hk : 2 ≤ k) (_hc : 1 ≤ count) :
    count ≤ k ^ sizeRequired k count := by
  apply sizeRequiredAux_spec
  calc count ≤ 2 ^ count := Nat.le_of_lt (Nat.lt_two_pow count)
    _ ≤ k ^ count := Nat.pow_le_pow_left hk count
    _ ≤ k ^ (1 + count) := Nat.pow_le_pow_right (by omega) (by omega)

theorem mem_allStrings_length {chars : List Char} :
    ∀ {n : Nat} {s : List Char}, s ∈ allStrings chars n → s.length = n := by
  intro n
  induction n with
  | zero => intro s hs; simp [allStrings] at hs; simp [hs]
  | succ n ih =>
    intro s hs
    simp only [allStrings, List.mem_flatMap, List.mem_map] at hs
    obtain ⟨t, ht, c, _, rfl⟩ := hs
    simp [ih ht]

theorem length_extendStrings (chars : List Char) (l : List (List Char)) :
    (l.flatMap (fun s => chars.map (fun c => s ++ [c]))).length =
      l.length * chars.length := by
  induction l with
  | nil => simp
  | cons a l ih => simp [List.flatMap_cons, ih, Nat.succ_mul, Nat.add_comm]

theorem length_allStrings (chars : List Char) :
    ∀ n, (allStrings chars n).length = chars.length ^ n := by
  intro n
  induction n with
  | zero => rfl
  | succ n ih =>
    show ((allStrings chars n).flatMap (fun s => chars.map (fun c => s ++ [c]))).length = _
    rw [length_extendStrings, ih, pow_succ]

theorem nodup_extendStrings {chars : List Char} (hnd : chars.Nodup)
    {n : Nat} (l : List (List Char)) (hlen : ∀ s ∈ l, s.length = n)
    (hl : l.Nodup) :
    (l.flatMap (fun s => chars.map (fun c => s ++ [c]))).Nodup := by
  rw [List.nodup_flatMap]
  constructor
  · intro s _
    exact hnd.map (fun a b h => by
      have := List.append_cancel_left h
      simpa using this)
  · refine hl.imp_of_mem ?_
    intro a b ha hb hne
    intro x hxa hxb
    simp only [List.mem_map] at hxa hxb
    obtain ⟨c, _, rfl⟩ := hxa
    obtain ⟨c', _, heq⟩ := hxb
    have hlena : b.length = a.length := by rw [hlen a ha, hlen b hb]
    exact hne ((List.append_inj heq hlena).1.symm)

theorem nodup_allStrings {chars : List Char} (hnd : chars.Nodup) :
    ∀ n, (allStrings chars n).Nodup := by
  intro n
  induction n with
  | zero => simp [allStrings]
  | succ n ih =>
    exact nodup_extendStrings hnd (allStrings chars n)
      (fun s hs => mem_allStrings_length hs) ih

theorem string_mk_injective : Function.Injective String.mk :=
  fun a b h => by injection h

theorem get_next_hint_spec {chars : List Char} {count : Nat}
    (hnd : chars.Nodup) (hk : 2 ≤ chars.length) (hc : 1 ≤ count)
    (current : List String) (hcur : current.length < count) :
    get_next_hint current chars count ∉ current ∧
    (get_next_hint current chars count).length = sizeRequired chars.length count := by
  have hL : get_next_hint current chars count =
      match (allStrings chars (sizeRequired chars.length count)).find?
        (fun s => !(current.contains (String.mk s))) with
      | some s => String.mk s
      | none => String.mk (chars.take 1) := rfl
  cases hfind : (allStrings chars (sizeRequired chars.length count)).find?
      (fun s => !(current.contains (String.mk s))) with
  | none =>
    exfalso
    have hall := List.find?_eq_none.mp hfind
    have hsub : (allStrings chars (sizeRequired chars.length count)).map String.mk
        ⊆ current := by
      intro x hx
      obtain ⟨s, hs, rfl⟩ := List.mem_map.mp hx
      have := hall s hs
      simp only [Bool.not_eq_true', Bool.not_eq_false] at this
      rw [List.contains] at this
      exact List.elem_iff.mp this
    have hndm : ((allStrings chars (sizeRequired chars.length count)).map
        String.mk).Nodup := (nodup_allStrings hnd _).map string_mk_injective
    have hle := (hndm.subperm hsub).length_le
    rw [List.length_map, length_allStrings] at hle
    have hcap := sizeRequired_spec hk hc
    omega
  | some s =>
    rw [hL, hfind]
    have hp := List.find?_some hfind
    have hmem := List.mem_of_find?_eq_some hfind
    simp only [Bool.not_eq_true', List.contains] at hp
    constructor
    · intro habs
      rw [List.elem_iff.mpr habs] at hp
      cases hp
    · exact mem_allStrings_length hmem

theorem lookup_eq_none_of_not_mem_keys {m : List (String × RenderWindow)}
    {k : String} (h : k ∉ m.map Prod.fst) : m.lookup k = none := by
  induction m with
  | nil => rfl
  | cons a m ih =>
    simp only [List.map_cons, List.mem_cons] at h
    push_neg at h
    rw [List.lookup]
    have : (k == a.1) = false := beq_eq_false_iff_ne.mpr h.1
    rw [this]
    exact ih h.2

theorem insertHM_fresh {m : List (String × RenderWindow)} {k : String}
    (v : RenderWindow) (h : k ∉ m.map Prod.fst) :
    insertHM k v m = m ++ [(k, v)] := by
  unfold insertHM
  rw [lookup_eq_none_of_not_mem_keys h]
  rfl

theorem spawnLoop_invariant (cfg : AppConfig) (ext : String → TextExtents)
    {chars : List Char} (hnd : chars.Nodup) (hk : 2 ≤ chars.length)
    {total : Nat} (h1 : 1 ≤ total) :
    ∀ (dws : List DesktopWindow) (m : List (String × RenderWindow)),
      (m.map Prod.fst).Nodup →
      (∀ s ∈ m.map Prod.fst, s.length = sizeRequired chars.length total) →
      m.length + dws.length ≤ total →
      (spawnLoop cfg ext chars total dws m).length = m.length + dws.length ∧
      ((spawnLoop cfg ext chars total dws m).map Prod.fst).Nodup ∧
      (∀ s ∈ (spawnLoop cfg ext chars total dws m).map Prod.fst,
        s.length = sizeRequired chars.length total) := by
  intro dws
  induction dws with
  | nil => intro m hm hlen _; exact ⟨by simp [spawnLoop], hm, hlen⟩
  | cons dw rest ih =>
    intro m hm hlen hbound
    simp only [List.length_cons] at hbound
    obtain ⟨hfresh, hhintlen⟩ :=
      get_next_hint_spec hnd hk h1 (m.map Prod.fst)
        (by rw [List.length_map]; omega)
    simp only [spawnLoop]
    rw [insertHM_fresh _ hfresh]
    set hint := get_next_hint (m.map Prod.fst) chars total with hhint
    set v : RenderWindow :=
      ⟨dw, drawPos (ext hint) (markerGeom cfg dw (ext hint))⟩ with hv
    have hkeys : (m ++ [(hint, v)]).map Prod.fst = m.map Prod.fst ++ [hint] := by
      simp
    have hnd2 : ((m ++ [(hint, v)]).map Prod.fst).Nodup := by
      rw [hkeys]
      refine List.Nodup.append hm (List.nodup_singleton _) ?_
      intro x hx hx'
      rw [List.mem_singleton] at hx'
      subst hx'
      exact hfresh hx
    have hlen2 : ∀ s ∈ (m ++ [(hint, v)]).map Prod.fst,
        s.length = sizeRequired chars.length total := by
      rw [hkeys]
      intro s hs
      rcases List.mem_append.mp hs with h | h
      · exact hlen s h
      · rw [List.mem_singleton] at h
        subst h
        exact hhintlen
    have hb2 : (m ++ [(hint, v)]).length + rest.length ≤ total := by
      simp only [List.length_append, List.length_singleton]
      omega
    obtain ⟨hstepL, hstepN, hstepS⟩ := ih (m ++ [(hint, v)]) hnd2 hlen2 hb2
    refine ⟨?_, hstepN, hstepS⟩
    rw [hstepL]
    simp only [List.length_append, List.length_singleton, List.length_cons,
      List.length_nil]
    omega

/-- C1: for any target count ≥ 1 and any duplicate-free hint alphabet of
size ≥ 2, the setup loop — one `get_next_hint` call per target, each passing
the keys of the map built so far — ends with a map holding exactly one entry
per target, all labels distinct, and no label a prefix of another. -/
theorem hint_allocation_correct (cfg : AppConfig) (ext : String → TextExtents)
    (chars : List Char) (dws : List DesktopWindow)
    (hnd : chars.Nodup) (hk : 2 ≤ chars.length) (hc : 1 ≤ dws.length) :
    (spawnLoop cfg ext chars dws.length dws []).length = dws.length ∧
    ((spawnLoop cfg ext chars dws.length dws []).map Prod.fst).Nodup ∧
    (∀ a ∈ (spawnLoop cfg ext chars dws.length dws []).map Prod.fst,
      ∀ b ∈ (spawnLoop cfg ext chars dws.length dws []).map Prod.fst,
        a.data <+: b.data → a = b) := by
  obtain ⟨hL, hN, hS⟩ := spawnLoop_invariant cfg ext hnd hk hc dws []
    (by simp) (by simp) (by simp)
  refine ⟨by simpa using hL, hN, ?_⟩
  intro a ha b hb hpre
  have hlab : a.length = b.length := by rw [hS a ha, hS b hb]
  have hdata : a.data = b.data := hpre.eq_of_length hlab
  cases a
  cases b
  exact congrArg String.mk hdata

/-- Witness for C1: two targets over the real 14-character alphabet. -/
theorem hint_allocation_correct_witness :
    HINT_CHARS.toList.Nodup ∧ 2 ≤ HINT_CHARS.toList.length ∧
    1 ≤ [dw0, dwTarget].length ∧
    ((render_windows cfg0 (fun _ => te10) [dw0, dwTarget]).length =
        [dw0, dwTarget].length ∧
      ((render_windows cfg0 (fun _ => te10) [dw0, dwTarget]).map Prod.fst).Nodup ∧
      (∀ a ∈ (render_windows cfg0 (fun _ => te10) [dw0, dwTarget]).map Prod.fst,
        ∀ b ∈ (render_windows cfg0 (fun _ => te10) [dw0, dwTarget]).map Prod.fst,
          a.data <+: b.data → a = b)) :=
  ⟨by decide, by decide, by decide,
   hint_allocation_correct cfg0 (fun _ => te10) HINT_CHARS.toList [dw0, dwTarget]
     (by decide) (by decide) (by decide)⟩

end Wmfocus
